import Mathlib

/-!
# Verification of the sql-sugar criteria/template compiler core

Shallow embedding of the repository's string-building core:

* `src/unnamed/part_000` (the util module): `sqlify`, `trimParameters`,
  `parens`, `ops`, `objectCriteria`;
* `src/table.js`: the null-safe codec wrapper installed by `Table.property`
  and the encoded value list built by `Table.insert`;
* a template flattener for the `nest-literal` package and the driver's
  positional placeholder naming, modelled from the spec (that package is a
  dependency, not part of this repository's sources).

JavaScript values that can appear as template substitutions or criteria
are embedded as the inductive type `Value`; JavaScript exceptions are
embedded as `Except String`.
-/

/-- A JavaScript value as used by the compiler core: scalars, arrays,
plain objects (ordered key/value pairs, as `Object.entries` would list
them), the `raw` verbatim marker of `nest-literal`, and a nested
`nest`-template (`tmpl frags subs`, with `frags` the literal callSite
fragments interleaved with the substituted values `subs`). -/
inductive Value where
  | str (s : String)
  | num (n : Int)
  | vnull
  | undefined
  | arr (elems : List Value)
  | obj (pairs : List (String × Value))
  | raw (text : String)
  | tmpl (frags : List String) (subs : List Value)

/-- `value.split("'").join("''")` from `sqlify` (util line 7): double
every apostrophe. -/
def escapeQuotes : List Char → List Char
  | [] => []
  | c :: rest =>
    if c = '\'' then '\'' :: '\'' :: escapeQuotes rest
    else c :: escapeQuotes rest

/-- The string branch of `sqlify` (util line 7): `N'<escaped>'`. -/
def sqlifyString (s : String) : String :=
  "N'" ++ String.mk (escapeQuotes s.data) ++ "'"

mutual

/-- The text produced by `sqlify` (util lines 6–11), before it is wrapped
in a `raw` marker: strings become quoted literals with doubled
apostrophes, numbers their decimal text, arrays recurse element-wise and
join with `", "`, everything else falls through to the `null` branch
(in the source `raw(null)` renders as the text `null`; note that a `raw`
marker or a nested template fed back into `sqlify` is a non-array object
and therefore also hits that branch). -/
def sqlifyText : Value → String
  | .str s => sqlifyString s
  | .num n => toString n
  | .arr es => sqlifyListText es
  | .vnull => "null"
  | .undefined => "null"
  | .obj _ => "null"
  | .raw _ => "null"
  | .tmpl _ _ => "null"

/-- `value.map(sqlify).join(', ')` for the array branch of `sqlify`. -/
def sqlifyListText : List Value → String
  | [] => ""
  | [v] => sqlifyText v
  | v :: rest => sqlifyText v ++ ", " ++ sqlifyListText rest

end

/-- `sqlify` (util lines 6–11): converts a value to a safely quoted
inline literal, wrapped in the verbatim `raw` marker. -/
def sqlify (v : Value) : Value := .raw (sqlifyText v)

/-- A `nest-literal` template: literal callSite fragments interleaved
with substituted values (`callSite.length = substitutions.length + 1`
for templates built from a tagged template literal). -/
structure Template where
  callSite : List String
  substitutions : List Value

/-- `const maxParams = 2100` (util line 19). -/
def maxParams : Nat := 2100

/-- The effect of the loop in `trimParameters` (util lines 20–22) on the
substitution array: `for (let i = n; i < substitutions.length; i++)
substitutions[i] = sqlify(substitutions[i])`, i.e. every element at
index `>= n` is replaced by its sqlified literal. -/
def trimFrom : Nat → List Value → List Value
  | _, [] => []
  | 0, v :: rest => sqlify v :: trimFrom 0 rest
  | n + 1, v :: rest => v :: trimFrom n rest

/-- `trimParameters` (util lines 17–24): returns
`nest(callSite, ...substitutions)` after the loop has replaced every
substitution at index `>= 2100` by its sqlified inline literal.  Note
the loop assigns `substitutions[i]` on the array owned by the input
template, so the input is mutated in place; the state of the input's
substitution array after the call is `trimParametersInputSubsAfter`. -/
def trimParameters (t : Template) : Template :=
  ⟨t.callSite, trimFrom maxParams t.substitutions⟩

/-- State-passing reading of the mutation performed by `trimParameters`
(util lines 20–22): the contents of `template.substitutions` after the
call returns.  The loop writes `sqlify(substitutions[i])` back into the
caller's array at every index `i >= 2100`. -/
def trimParametersInputSubsAfter (t : Template) : List Value :=
  trimFrom maxParams t.substitutions

/-! ## Template flattening (modelled from the spec)

`nest-literal`'s flattening of a template into executable query text
with positional placeholders, and the SQL-Server-family driver's
placeholder naming, are not part of this repository's sources.  The
functions below are *modelled from the spec*: a `raw` value is spliced
verbatim; a sequence expands element-wise joined by `", "`; a nested
template is compiled recursively with its placeholder numbering
continuing from the parent's counter; every other value becomes one
placeholder `@p<n>` (numbered from 1 in left-to-right discovery order)
bound to that value. -/

/-- Modelled from the spec: the driver's positional placeholder name,
`@p1`, `@p2`, … -/
def placeholder (n : Nat) : String := "@p" ++ toString n

/-- A value that is bound directly through a single placeholder by the
flattener (neither a verbatim `raw` marker, nor a sequence, nor a
nested template). -/
def isScalar : Value → Bool
  | .str _ => true
  | .num _ => true
  | .vnull => true
  | .undefined => true
  | .obj _ => true
  | .raw _ => false
  | .arr _ => false
  | .tmpl _ _ => false

mutual

/-- Modelled from the spec: flatten one substituted value, given the
next placeholder number; yields the produced query text, the bound
values in order, and the next free placeholder number. -/
def compileValue : Value → Nat → String × List Value × Nat
  | .raw s, n => (s, [], n)
  | .arr es, n => compileSeq es n
  | .tmpl frags subs, n => compileNest frags subs n
  | v, n => (placeholder n, [v], n + 1)

/-- Modelled from the spec: sequence expansion — each element flattened
in order, the pieces joined by `", "`. -/
def compileSeq : List Value → Nat → String × List Value × Nat
  | [], n => ("", [], n)
  | [v], n => compileValue v n
  | v :: rest, n =>
    let p := compileValue v n
    let q := compileSeq rest p.2.2
    (p.1 ++ ", " ++ q.1, p.2.1 ++ q.2.1, q.2.2)

/-- Modelled from the spec: interleave the literal fragments with the
flattened substitutions, threading the placeholder counter left to
right. -/
def compileNest : List String → List Value → Nat → String × List Value × Nat
  | [], _, n => ("", [], n)
  | f :: fs, [], n => (f ++ String.join fs, [], n)
  | f :: fs, s :: ss, n =>
    let p := compileValue s n
    let q := compileNest fs ss p.2.2
    (f ++ p.1 ++ q.1, p.2.1 ++ q.2.1, q.2.2)

end

/-- The executable form of a template: query text with positional
placeholders, plus the ordered bound-value list. -/
def compile (t : Template) : String × List Value :=
  let p := compileNest t.callSite t.substitutions 1
  (p.1, p.2.1)

/-- Query text of the executable form. -/
def compiledText (t : Template) : String := (compile t).1

/-- Ordered bound-value list of the executable form. -/
def boundValues (t : Template) : List Value := (compile t).2

mutual

/-- The flattened bound values of one substituted value: what the
flattener binds, in order (`raw` markers bind nothing, sequences and
nested templates recurse, every other value binds itself once). -/
def flatBound : Value → List Value
  | .raw _ => []
  | .arr es => flatBoundList es
  | .tmpl _ subs => flatBoundList subs
  | v => [v]

/-- `flatBound` over a list of values. -/
def flatBoundList : List Value → List Value
  | [] => []
  | v :: rest => flatBound v ++ flatBoundList rest

end

/-- The flattened value count of a template: how many placeholders its
executable form contains before any trimming. -/
def flatCount (t : Template) : Nat := (flatBoundList t.substitutions).length

/-! ## Criteria compiler (`objectCriteria` and friends, util lines 26–65) -/

/-- `key.startsWith('$')` as used throughout `objectCriteria`: a string
starts with the single character `$`.  (Defined on the character list so
that it evaluates by kernel reduction.) -/
def startsDollar (s : String) : Bool :=
  match s.data with
  | [] => false
  | c :: _ => c = '$'

/-- `parens` (util lines 26–29): a single-element list is returned
unchanged; otherwise the elements are joined pairwise with the
delimiter (`arr.reduce(join.with(delim))`) and wrapped in parentheses.
`Array.prototype.reduce` on an empty array with no initial value throws
a `TypeError`. -/
def parens (ts : List Value) (delim : String) : Except String Value :=
  match ts with
  | [] => .error "Reduce of empty array with no initial value"
  | [t] => .ok t
  | t :: rest =>
    .ok (.tmpl ["(", ")"] [rest.foldl (fun a b => .tmpl ["", delim, ""] [a, b]) t])

/-- The `ops` table (util lines 30–39): the eight recognized comparison
operators, each building the template of the corresponding comparison
(`` nest`[${raw(f)}] <op> ${v}` ``); property access on any other key
yields `undefined` (`none`). -/
def ops (key : String) : Option (String → Value → Value) :=
  match key with
  | "$eq" => some fun f v => .tmpl ["[", "] = ", ""] [.raw f, v]
  | "$ne" => some fun f v => .tmpl ["[", "] != ", ""] [.raw f, v]
  | "$gt" => some fun f v => .tmpl ["[", "] > ", ""] [.raw f, v]
  | "$gte" => some fun f v => .tmpl ["[", "] >= ", ""] [.raw f, v]
  | "$lt" => some fun f v => .tmpl ["[", "] < ", ""] [.raw f, v]
  | "$lte" => some fun f v => .tmpl ["[", "] <= ", ""] [.raw f, v]
  | "$in" => some fun f v => .tmpl ["[", "] in (", ")"] [.raw f, v]
  | "$nin" => some fun f v => .tmpl ["[", "] not in (", ")"] [.raw f, v]
  | _ => none

/-- A registered property: `{type, encode, decode}` as stored by
`Table.property` (table.js lines 36–43). -/
structure PropDesc where
  type : Value
  encode : Value → Value
  decode : Value → Value

/-- The property-descriptor mapping handed to `objectCriteria`
(`parameters`, a field-name-keyed map). -/
def PropMap := List (String × PropDesc)

/-- `encode` inside `objectCriteria` (util line 46):
`parameters.has(field) ? parameters.get(field).encode(value) : value`. -/
def encodeField (params : PropMap) (field : String) (v : Value) : Value :=
  match List.lookup field (params : List (String × PropDesc)) with
  | some d => d.encode v
  | none => v

mutual

/-- `objectCriteria` (util lines 41–65).  An empty object compiles to
the tautology `raw('1 = 1')`.  If some key starts with `$` every entry
must be a directive and the compiled groups are ANDed; otherwise every
entry is a field comparison and the comparisons are ANDed.  Exceptions
thrown by the source are `.error` results.  Non-object inputs follow
`Object.keys`/`Object.entries` on the corresponding JavaScript value:
`null`/`undefined` throw, a number has no enumerable keys and yields the
tautology, an array enumerates its elements under their index keys
(index keys never start with `$`).  (A `raw` marker or template object
fed back in would enumerate the `nest-literal` internals; that cannot
arise from the documented inputs and is embedded as the no-keys
tautology.) -/
def objectCriteria (v : Value) (params : PropMap) : Except String Value :=
  match v with
  | .obj pairs =>
    if pairs.isEmpty then .ok (.raw "1 = 1")
    else if pairs.any (fun p => startsDollar p.1) then do
      let ts ← directiveEntries pairs params
      parens ts " AND "
    else do
      let ts ← fieldEntries pairs params
      parens ts " AND "
  | .vnull => .error "Cannot convert undefined or null to object"
  | .undefined => .error "Cannot convert undefined or null to object"
  | .arr es =>
    if es.isEmpty then .ok (.raw "1 = 1")
    else do
      let ts ← indexedEntries 0 es params
      parens ts " AND "
  | _ => .ok (.raw "1 = 1")

/-- One entry of the directive branch (util lines 42–45 and 49–51): a
key that does not start with `$` throws the mixing error; `$and` and
`$or` compile `parens(v.map(v => objectCriteria(v, parameters)), delim)`
with their boolean operator — the group's value must be an array
(anything else has no `.map` method); any other key is `undefined` in
the `groups` table and invoking it throws a `TypeError`. -/
def directiveStep (key : String) (value : Value) (params : PropMap) :
    Except String Value :=
  if !startsDollar key then .error "Cannot mix directives with fields"
  else if key = "$and" then
    match value with
    | .arr cs => do
      let ts ← critList cs params
      parens ts " AND "
    | _ => .error "v.map is not a function"
  else if key = "$or" then
    match value with
    | .arr cs => do
      let ts ← critList cs params
      parens ts " OR "
    | _ => .error "v.map is not a function"
  else .error "groups[key] is not a function"

/-- `v.map(v => objectCriteria(v, parameters))`: recursive compilation
of each group element, in order; a thrown error aborts the map. -/
def critList (cs : List Value) (params : PropMap) :
    Except String (List Value) :=
  match cs with
  | [] => .ok []
  | c :: rest => do
    let t ← objectCriteria c params
    let ts ← critList rest params
    .ok (t :: ts)

/-- `Object.entries(obj).map(...)` of the directive branch
(util lines 49–52). -/
def directiveEntries (pairs : List (String × Value)) (params : PropMap) :
    Except String (List Value) :=
  match pairs with
  | [] => .ok []
  | (k, v) :: rest => do
    let t ← directiveStep k v params
    let ts ← directiveEntries rest params
    .ok (t :: ts)

/-- `Object.entries(obj).map(...)` of the field branch
(util lines 54–63). -/
def fieldEntries (pairs : List (String × Value)) (params : PropMap) :
    Except String (List Value) :=
  match pairs with
  | [] => .ok []
  | (field, v) :: rest => do
    let t ← compileField field v params
    let ts ← fieldEntries rest params
    .ok (t :: ts)

/-- One field entry (util lines 55–62): if the value is an object with
some `$`-key (`value && Object.keys(value).some(x =>
x.startsWith('$'))` — only objects can have `$`-keys, and falsy values
never reach the key test), each operator/value pair compiles to one
comparison and they are ANDed; otherwise the entry is an equality
against the encoded value. -/
def compileField (field : String) (v : Value) (params : PropMap) :
    Except String Value :=
  match v with
  | .obj opPairs =>
    if opPairs.any (fun p => startsDollar p.1) then do
      let ts ← opEntries field opPairs params
      parens ts " AND "
    else .ok (.tmpl ["[", "] = ", ""] [.raw field, encodeField params field (.obj opPairs)])
  | w => .ok (.tmpl ["[", "] = ", ""] [.raw field, encodeField params field w])

/-- The operator pairs of one field (util lines 56–59): a key that does
not start with `$` throws the mixing error; otherwise `ops[key]` is
invoked on the encoded value — for an unrecognized key `ops[key]` is
`undefined` and the call throws a `TypeError`. -/
def opEntries (field : String) (opPairs : List (String × Value))
    (params : PropMap) : Except String (List Value) :=
  match opPairs with
  | [] => .ok []
  | (key, v2) :: rest => do
    let t ←
      if !startsDollar key then
        Except.error "Cannot mix directives with fields"
      else
        match ops key with
        | some op => .ok (op field (encodeField params field v2))
        | none => .error "ops[key] is not a function"
    let ts ← opEntries field rest params
    .ok (t :: ts)

/-- `Object.entries` of an array input enumerates the elements under
their decimal index keys. -/
def indexedEntries (i : Nat) (es : List Value) (params : PropMap) :
    Except String (List Value) :=
  match es with
  | [] => .ok []
  | e :: rest => do
    let t ← compileField (toString i) e params
    let ts ← indexedEntries (i + 1) rest params
    .ok (t :: ts)

end

/-! ## Table.property and insert values (table.js) -/

/-- `Table.property` (table.js lines 36–43): the descriptor stored for a
registered field wraps the caller-supplied codec so that `null` and
`undefined` map to `null` without invoking it. -/
def mkPropertyDesc (type : Value) (enc dec : Value → Value) : PropDesc where
  type := type
  encode := fun v =>
    match v with
    | .vnull => .vnull
    | .undefined => .vnull
    | w => enc w
  decode := fun v =>
    match v with
    | .vnull => .vnull
    | .undefined => .vnull
    | w => dec w

/-- A record as a JavaScript object: ordered key/value pairs. -/
def Record := List (String × Value)

/-- `record[field]` for a present field. -/
def recordGet (record : Record) (field : String) : Value :=
  (List.lookup field (record : List (String × Value))).getD .undefined

/-- The encoded value list built by `Table.insert` (table.js lines
76–79): the registered fields present on the record, in registration
order, each passed through its stored `encode`. -/
def insertValues (props : PropMap) (record : Record) : List Value :=
  ((props : List (String × PropDesc)).filter
      (fun p => (List.lookup p.1 (record : List (String × Value))).isSome)).map
    (fun p => p.2.encode (recordGet record p.1))

/-! ## Reading a SQL string literal back (for the round-trip claim)

The claim's parsing direction, following its words: strip the `N` prefix
and the outer quotes, then undouble every internal apostrophe. -/

/-- Undouble apostrophes: the inverse of `escapeQuotes` on escaped
text. -/
def unescapeQuotes : List Char → List Char
  | [] => []
  | [c] => [c]
  | c1 :: c2 :: rest =>
    if c1 = '\'' ∧ c2 = '\'' then '\'' :: unescapeQuotes rest
    else c1 :: unescapeQuotes (c2 :: rest)

/-- Parse a SQL Unicode string literal `N'...'`: check the prefix and
the closing quote, then undouble the apostrophes between the outer
quotes. -/
def parseSqlStringLiteral (lit : String) : Option String :=
  match lit.data with
  | 'N' :: '\'' :: rest =>
    match rest.getLast? with
    | some c =>
      if c = '\'' then some (String.mk (unescapeQuotes rest.dropLast)) else none
    | none => none
  | _ => none

/-- The operator-mapping test of the field branch (util line 55):
`value && Object.keys(value).some(x => x.startsWith('$'))` — true
exactly for objects with some `$`-prefixed key (falsy values never reach
the key test, and no other value kind has `$`-keys). -/
def isOpMap : Value → Bool
  | .obj opPairs => opPairs.any (fun p => startsDollar p.1)
  | _ => false

mutual

/-- Well-formed template values: every nested `nest`-template has one
more callSite fragment than substitutions (the invariant of a tagged
template literal, and of every template the criteria compiler builds). -/
def wellFormed : Value → Bool
  | .tmpl frags subs => (frags.length = subs.length + 1) && wellFormedList subs
  | .arr es => wellFormedList es
  | _ => true

/-- `wellFormed` over a list of values. -/
def wellFormedList : List Value → Bool
  | [] => true
  | v :: rest => wellFormed v && wellFormedList rest

end

mutual

/-- A criteria value contains, at some compiled nesting level, a mapping
that mixes `$`-prefixed keys with plain keys: either the object itself
mixes directive keys with field keys, or one of its entries does —
a `$`-keyed entry through the group's array of nested criteria, a plain
entry through its operator mapping. -/
def hasMixing : Value → Bool
  | .obj pairs =>
    (pairs.any (fun p => startsDollar p.1) && pairs.any (fun p => !startsDollar p.1))
      || hasMixingEntries pairs
  | _ => false

/-- `hasMixing` over the entries of one object. -/
def hasMixingEntries : List (String × Value) → Bool
  | [] => false
  | (k, v) :: rest => hasMixingEntry k v || hasMixingEntries rest

/-- Mixing inside one entry: under a `$`-key the group's array elements
are compiled recursively; under a plain key only an operator mapping is
inspected, and it mixes when it has both `$`-prefixed and plain keys. -/
def hasMixingEntry (k : String) (v : Value) : Bool :=
  if startsDollar k then
    match v with
    | .arr cs => hasMixingList cs
    | _ => false
  else
    match v with
    | .obj opPairs =>
      opPairs.any (fun p => startsDollar p.1) && opPairs.any (fun p => !startsDollar p.1)
    | _ => false

/-- `hasMixing` over a group's element list. -/
def hasMixingList : List Value → Bool
  | [] => false
  | c :: rest => hasMixing c || hasMixingList rest

end

/-- The first list is an initial segment of the second. -/
def leadsWith : List Char → List Char → Bool
  | [], _ => true
  | _ :: _, [] => false
  | c :: cs, d :: ds => c = d && leadsWith cs ds

/-- The first list occurs as a contiguous run inside the second (used to
state that an error message does or does not name a key). -/
def occursIn (needle : List Char) : List Char → Bool
  | [] => needle.isEmpty
  | c :: tl => leadsWith needle (c :: tl) || occursIn needle tl

/-! ## Helper lemmas -/

theorem escapeQuotes_eq_nil {l : List Char} (h : escapeQuotes l = []) : l = [] := by
  cases l with
  | nil => rfl
  | cons c cs =>
    simp only [escapeQuotes] at h
    split at h <;> simp at h

theorem unescapeQuotes_escapeQuotes (l : List Char) :
    unescapeQuotes (escapeQuotes l) = l := by
  induction l with
  | nil => rfl
  | cons c cs ih =>
    by_cases hc : c = '\''
    · subst hc
      simp only [escapeQuotes, if_pos rfl]
      cases h : escapeQuotes cs with
      | nil =>
        have : cs = [] := escapeQuotes_eq_nil h
        subst this
        simp [unescapeQuotes]
      | cons d tl =>
        rw [h] at ih
        simp [unescapeQuotes, ih]
    · simp only [escapeQuotes, if_neg hc]
      cases h : escapeQuotes cs with
      | nil =>
        have : cs = [] := escapeQuotes_eq_nil h
        subst this
        simp [unescapeQuotes]
      | cons d tl =>
        rw [h] at ih
        simp only [unescapeQuotes]
        rw [if_neg (by simp [hc]), ih]

theorem string_data_append (a b : String) : (a ++ b).data = a.data ++ b.data := rfl

theorem sqlifyString_data (s : String) :
    (sqlifyString s).data = 'N' :: '\'' :: (escapeQuotes s.data ++ ['\'']) := by
  simp [sqlifyString, string_data_append, String.mk]

/-- C5: round-trip literal safety of the debug stringification of
strings: `sqlify`'s string branch wraps the string in quotes with each
internal apostrophe doubled, and reading the result back as a SQL string
literal yields the original string exactly. -/
theorem sqlify_string_roundtrip (s : String) :
    parseSqlStringLiteral (sqlifyText (.str s)) = some s := by
  show parseSqlStringLiteral (sqlifyString s) = some s
  unfold parseSqlStringLiteral
  rw [sqlifyString_data]
  simp only [List.getLast?_concat, List.dropLast_concat, if_pos rfl,
    unescapeQuotes_escapeQuotes, if_true]

theorem errorBind {α β : Type} (s : String) (f : α → Except String β) :
    (Except.error s >>= f) = Except.error s := rfl

theorem okBind {α β : Type} (a : α) (f : α → Except String β) :
    (Except.ok a >>= f) = f a := rfl

theorem flatBoundList_append (l1 l2 : List Value) :
    flatBoundList (l1 ++ l2) = flatBoundList l1 ++ flatBoundList l2 := by
  induction l1 with
  | nil => simp [flatBoundList]
  | cons v rest ih => simp [flatBoundList, ih]

theorem flatBound_scalar {v : Value} (h : isScalar v = true) : flatBound v = [v] := by
  cases v <;> simp_all [isScalar, flatBound]

theorem flatBoundList_all_scalar {l : List Value} (h : ∀ v ∈ l, isScalar v = true) :
    flatBoundList l = l := by
  induction l with
  | nil => rfl
  | cons v rest ih =>
    simp only [flatBoundList]
    rw [flatBound_scalar (h v (by simp)), ih (fun w hw => h w (by simp [hw]))]
    rfl

theorem flatBoundList_map_sqlify (l : List Value) :
    flatBoundList (l.map sqlify) = [] := by
  induction l with
  | nil => rfl
  | cons v rest ih => simp [flatBoundList, sqlify, flatBound, ih]

theorem wellFormed_of_isScalar {v : Value} (h : isScalar v = true) :
    wellFormed v = true := by
  cases v <;> simp_all [isScalar, wellFormed]

theorem wellFormedList_of_all_scalar {l : List Value} (h : ∀ v ∈ l, isScalar v = true) :
    wellFormedList l = true := by
  induction l with
  | nil => rfl
  | cons v rest ih =>
    simp only [wellFormedList, Bool.and_eq_true]
    exact ⟨wellFormed_of_isScalar (h v (by simp)), ih (fun w hw => h w (by simp [hw]))⟩

theorem wellFormedList_append {l1 l2 : List Value} (h1 : wellFormedList l1 = true)
    (h2 : wellFormedList l2 = true) : wellFormedList (l1 ++ l2) = true := by
  induction l1 with
  | nil => simpa using h2
  | cons v rest ih =>
    simp only [wellFormedList, Bool.and_eq_true] at h1 ⊢
    exact ⟨h1.1, ih h1.2⟩

theorem wellFormedList_map_sqlify (l : List Value) :
    wellFormedList (l.map sqlify) = true := by
  induction l with
  | nil => rfl
  | cons v rest ih => simp [wellFormedList, sqlify, wellFormed, ih]

theorem trimFrom_eq_take_append_drop (n : Nat) (l : List Value) :
    trimFrom n l = l.take n ++ (l.drop n).map sqlify := by
  induction l generalizing n with
  | nil => simp [trimFrom]
  | cons v rest ih =>
    cases n with
    | zero => simp [trimFrom, ih 0]
    | succ m => simp [trimFrom, ih m]

theorem trimFrom_of_length_le {n : Nat} {l : List Value} (h : l.length ≤ n) :
    trimFrom n l = l := by
  rw [trimFrom_eq_take_append_drop, List.take_of_length_le h,
    List.drop_eq_nil_of_le h]
  simp

mutual

theorem compileValue_spec (v : Value) (n : Nat) (h : wellFormed v = true) :
    (compileValue v n).2.1 = flatBound v ∧
      (compileValue v n).2.2 = n + (flatBound v).length := by
  match v with
  | .str _ | .num _ | .vnull | .undefined | .obj _ =>
    simp [compileValue, flatBound]
  | .raw s => simp [compileValue, flatBound]
  | .arr es =>
    have := compileSeq_spec es n (by simpa [wellFormed] using h)
    simpa [compileValue, flatBound] using this
  | .tmpl fr su =>
    simp only [wellFormed, Bool.and_eq_true, decide_eq_true_eq] at h
    have := compileNest_spec fr su n h.1 h.2
    simpa [compileValue, flatBound] using this

theorem compileSeq_spec (es : List Value) (n : Nat) (h : wellFormedList es = true) :
    (compileSeq es n).2.1 = flatBoundList es ∧
      (compileSeq es n).2.2 = n + (flatBoundList es).length := by
  match es with
  | [] => simp [compileSeq, flatBoundList]
  | [v] =>
    have hv : wellFormed v = true := by
      simpa [wellFormedList] using h
    have := compileValue_spec v n hv
    simpa [compileSeq, flatBoundList] using this
  | v :: w :: rest =>
    simp only [wellFormedList, Bool.and_eq_true] at h
    have h1 := compileValue_spec v n h.1
    have h2 := compileSeq_spec (w :: rest) (compileValue v n).2.2
      (by simp [wellFormedList, h.2.1, h.2.2])
    simp only [compileSeq, flatBoundList]
    rw [h1.1, h2.1, h2.2, h1.2]
    refine ⟨rfl, ?_⟩
    simp only [flatBoundList] at h2 ⊢
    simp [List.length_append]
    omega

theorem compileNest_spec (frags : List String) (subs : List Value) (n : Nat)
    (hl : frags.length = subs.length + 1) (h : wellFormedList subs = true) :
    (compileNest frags subs n).2.1 = flatBoundList subs ∧
      (compileNest frags subs n).2.2 = n + (flatBoundList subs).length := by
  match frags, subs with
  | [], _ => simp at hl
  | [f], [] => simp [compileNest, flatBoundList]
  | f :: g :: fs, [] => simp at hl
  | [f], s :: ss => simp at hl
  | f :: g :: fs, s :: ss =>
    simp only [wellFormedList, Bool.and_eq_true] at h
    have h1 := compileValue_spec s n h.1
    have h2 := compileNest_spec (g :: fs) ss (compileValue s n).2.2
      (by simpa using hl) h.2
    simp only [compileNest, flatBoundList]
    rw [h1.1, h2.1, h2.2, h1.2]
    refine ⟨rfl, ?_⟩
    simp [List.length_append]
    omega

end

theorem flatBoundList_singleton (v : Value) : flatBoundList [v] = flatBound v := by
  simp [flatBoundList]

theorem flatBound_arr (es : List Value) : flatBound (.arr es) = flatBoundList es := rfl

theorem wellFormedList_singleton (v : Value) : wellFormedList [v] = wellFormed v := by
  simp [wellFormedList]

theorem wellFormed_arr (es : List Value) : wellFormed (.arr es) = wellFormedList es := rfl

/-! ## C1, C2: trimParameters -/

/-- C1 counterexample: a template whose single substitution is a
2105-element sequence has 2105 flattened values (exceeding the 2100
cap), yet `trimParameters` leaves it untouched — the executable form
still binds 2105 values through 2105 placeholders, not 2100: the cap is
applied per top-level substitution index, not per flattened positional
element. -/
theorem trimParameters_seq_straddle_counterexample :
    flatCount ⟨["", ""], [Value.arr (List.replicate 2105 (Value.num 1))]⟩ = 2105 ∧
      2100 < flatCount ⟨["", ""], [Value.arr (List.replicate 2105 (Value.num 1))]⟩ ∧
      (boundValues
          (trimParameters ⟨["", ""], [Value.arr (List.replicate 2105 (Value.num 1))]⟩)).length
        = 2105 := by
  have hscal : ∀ v ∈ List.replicate 2105 (Value.num 1), isScalar v = true := by
    intro v hv
    rw [List.eq_of_mem_replicate hv]
    rfl
  have hfb : flatBoundList (List.replicate 2105 (Value.num 1))
      = List.replicate 2105 (Value.num 1) := flatBoundList_all_scalar hscal
  have hflat : flatCount ⟨["", ""], [Value.arr (List.replicate 2105 (Value.num 1))]⟩ = 2105 := by
    show (flatBoundList [Value.arr (List.replicate 2105 (Value.num 1))]).length = 2105
    rw [flatBoundList_singleton, flatBound_arr, hfb, List.length_replicate]
  have htrim : trimParameters ⟨["", ""], [Value.arr (List.replicate 2105 (Value.num 1))]⟩
      = ⟨["", ""], [Value.arr (List.replicate 2105 (Value.num 1))]⟩ := by
    show Template.mk _ (trimFrom maxParams _) = _
    rw [trimFrom_of_length_le (by decide)]
  have hwf : wellFormedList [Value.arr (List.replicate 2105 (Value.num 1))] = true := by
    rw [wellFormedList_singleton, wellFormed_arr]
    exact wellFormedList_of_all_scalar hscal
  have hb := (compileNest_spec ["", ""] [Value.arr (List.replicate 2105 (Value.num 1))] 1
    (by decide) hwf).1
  refine ⟨hflat, by rw [hflat]; norm_num, ?_⟩
  rw [htrim]
  show (compileNest ["", ""] [Value.arr (List.replicate 2105 (Value.num 1))] 1).2.1.length = 2105
  rw [hb, flatBoundList_singleton, flatBound_arr, hfb, List.length_replicate]

/-- C1 (amended): the 2100-parameter cap is applied per top-level
substitution index, before sequence flattening — every substitution at
index ≥ 2100 is inlined whole as a safely escaped literal, the ones
below stay placeholders.  In particular, when every substitution is a
scalar (one flattened value each) and there are at least 2100 of them,
the executable form has exactly 2100 placeholders (numbered `@p1` …
`@p2100`), the bound-value list is exactly the first 2100 substitutions,
and all remaining substitutions appear only as inlined literals. -/
theorem trimParameters_cap_per_substitution (t : Template)
    (hscal : ∀ v ∈ t.substitutions, isScalar v = true)
    (hlen : t.callSite.length = t.substitutions.length + 1)
    (hcap : maxParams ≤ t.substitutions.length) :
    (trimParameters t).substitutions
        = t.substitutions.take maxParams ++ (t.substitutions.drop maxParams).map sqlify
      ∧ boundValues (trimParameters t) = t.substitutions.take maxParams
      ∧ (boundValues (trimParameters t)).length = maxParams
      ∧ (compileNest (trimParameters t).callSite (trimParameters t).substitutions 1).2.2
          = maxParams + 1 := by
  have e1 : (trimParameters t).substitutions
      = t.substitutions.take maxParams ++ (t.substitutions.drop maxParams).map sqlify := by
    show trimFrom maxParams t.substitutions = _
    exact trimFrom_eq_take_append_drop _ _
  have hscalTake : ∀ v ∈ t.substitutions.take maxParams, isScalar v = true :=
    fun v hv => hscal v (List.take_subset _ _ hv)
  have hwf : wellFormedList (trimParameters t).substitutions = true := by
    rw [e1]
    exact wellFormedList_append (wellFormedList_of_all_scalar hscalTake)
      (wellFormedList_map_sqlify _)
  have hminEq : min maxParams t.substitutions.length = maxParams := min_eq_left hcap
  have hlen2 : (trimParameters t).substitutions.length = t.substitutions.length := by
    rw [e1]
    simp [List.length_take, List.length_drop, hminEq]
    omega
  have hcs : (trimParameters t).callSite = t.callSite := rfl
  have hl' : (trimParameters t).callSite.length = (trimParameters t).substitutions.length + 1 := by
    rw [hcs, hlen2, hlen]
  have hfb : flatBoundList (trimParameters t).substitutions = t.substitutions.take maxParams := by
    rw [e1, flatBoundList_append, flatBoundList_all_scalar hscalTake,
      flatBoundList_map_sqlify, List.append_nil]
  have hspec := compileNest_spec (trimParameters t).callSite (trimParameters t).substitutions 1
    hl' hwf
  have hbv : boundValues (trimParameters t) = t.substitutions.take maxParams := by
    show (compileNest (trimParameters t).callSite (trimParameters t).substitutions 1).2.1 = _
    rw [hspec.1, hfb]
  refine ⟨e1, hbv, ?_, ?_⟩
  · rw [hbv]
    simp [List.length_take, hminEq]
  · rw [hspec.2, hfb]
    simp [List.length_take, hminEq]
    omega

/-- C1 witness: at 2105 scalar substitutions the cap theorem applies and
yields a bound-value list of length exactly 2100. -/
theorem trimParameters_cap_per_substitution_witness :
    (∀ v ∈ (Template.mk (List.replicate 2106 "")
        (List.replicate 2105 (Value.num 7))).substitutions, isScalar v = true) ∧
      (Template.mk (List.replicate 2106 "")
          (List.replicate 2105 (Value.num 7))).callSite.length
        = (Template.mk (List.replicate 2106 "")
            (List.replicate 2105 (Value.num 7))).substitutions.length + 1 ∧
      maxParams ≤ (Template.mk (List.replicate 2106 "")
          (List.replicate 2105 (Value.num 7))).substitutions.length ∧
      (boundValues (trimParameters (Template.mk (List.replicate 2106 "")
          (List.replicate 2105 (Value.num 7))))).length = maxParams := by
  have h1 : ∀ v ∈ (Template.mk (List.replicate 2106 "")
      (List.replicate 2105 (Value.num 7))).substitutions, isScalar v = true := by
    intro v hv
    rw [List.eq_of_mem_replicate hv]
    rfl
  have h2 : (Template.mk (List.replicate 2106 "")
      (List.replicate 2105 (Value.num 7))).callSite.length
      = (Template.mk (List.replicate 2106 "")
          (List.replicate 2105 (Value.num 7))).substitutions.length + 1 := by
    show (List.replicate 2106 "").length = (List.replicate 2105 (Value.num 7)).length + 1
    simp only [List.length_replicate]
  have h3 : maxParams ≤ (Template.mk (List.replicate 2106 "")
      (List.replicate 2105 (Value.num 7))).substitutions.length := by
    show maxParams ≤ (List.replicate 2105 (Value.num 7)).length
    simp only [List.length_replicate]
    decide
  exact ⟨h1, h2, h3, (trimParameters_cap_per_substitution _ h1 h2 h3).2.2.1⟩

/-- C2 counterexample: `trimParameters` modifies the substitution list
of the template it is given — after a call on a template with 2101
string substitutions, the input's substitution array no longer equals
the original list (its last element has been replaced in place by the
sqlified literal `raw "N'a'"`). -/
theorem trimParameters_mutates_input_counterexample :
    trimParametersInputSubsAfter
        ⟨List.replicate 2102 "", List.replicate 2101 (Value.str "a")⟩
      ≠ List.replicate 2101 (Value.str "a") := by
  have key : trimParametersInputSubsAfter
        ⟨List.replicate 2102 "", List.replicate 2101 (Value.str "a")⟩
      = List.replicate 2100 (Value.str "a") ++ [Value.raw "N'a'"] := by
    show trimFrom maxParams (List.replicate 2101 (Value.str "a")) = _
    rw [trimFrom_eq_take_append_drop, List.take_replicate, List.drop_replicate]
    have e1 : min maxParams 2101 = 2100 := by decide
    have e2 : (2101 : Nat) - maxParams = 1 := by decide
    rw [e1, e2]
    exact congrArg (fun l => List.replicate 2100 (Value.str "a") ++ l) (by rfl)
  intro h
  rw [key] at h
  have h2 := congrArg List.getLast? h
  rw [List.getLast?_concat] at h2
  have e : (2101 : Nat) = 2100 + 1 := by norm_num
  rw [e, List.replicate_succ', List.getLast?_concat] at h2
  exact Value.noConfusion (Option.some.inj h2)

/-- C2 (amended): compilation is deterministic and `objectCriteria`
reads its inputs without changing them, and `trimParameters` leaves any
template with at most 2100 substitutions unchanged; but on longer
templates it mutates the input's substitution list in place (every
element at index ≥ 2100 is replaced by its sqlified literal), so it is
not side-effect-free over its input. -/
theorem trimParameters_id_below_cap (t : Template)
    (h : t.substitutions.length ≤ maxParams) : trimParameters t = t := by
  show Template.mk t.callSite (trimFrom maxParams t.substitutions) = t
  rw [trimFrom_of_length_le h]

/-- C2 witness: a one-substitution template is left unchanged. -/
theorem trimParameters_id_below_cap_witness :
    (Template.mk ["where x = ", ""] [Value.num 3]).substitutions.length ≤ maxParams ∧
      trimParameters (Template.mk ["where x = ", ""] [Value.num 3])
        = Template.mk ["where x = ", ""] [Value.num 3] :=
  ⟨by decide, trimParameters_id_below_cap _ (by decide)⟩


/-! ## Error propagation through the criteria compiler -/

theorem directiveStep_err_nonDollar {k : String} {v : Value} {ps : PropMap}
    (h : startsDollar k = false) :
    directiveStep k v ps = .error "Cannot mix directives with fields" := by
  unfold directiveStep
  simp [h]

theorem directiveStep_err_badKey {k : String} {v : Value} {ps : PropMap}
    (h1 : k ≠ "$and") (h2 : k ≠ "$or") :
    ∀ r, directiveStep k v ps ≠ .ok r := by
  intro r hr
  by_cases hd : startsDollar k
  · unfold directiveStep at hr
    simp [hd, h1, h2] at hr
  · rw [directiveStep_err_nonDollar (by simpa using hd)] at hr
    exact Except.noConfusion hr

theorem directiveStep_and_eq (cs : List Value) (ps : PropMap) :
    directiveStep "$and" (.arr cs) ps
      = (do
          let ts ← critList cs ps
          parens ts " AND ") := rfl

theorem directiveStep_or_eq (cs : List Value) (ps : PropMap) :
    directiveStep "$or" (.arr cs) ps
      = (do
          let ts ← critList cs ps
          parens ts " OR ") := rfl

theorem directiveStep_group_err {k : String} {cs : List Value} {ps : PropMap}
    (hk : k = "$and" ∨ k = "$or")
    (hcl : ∀ rs, critList cs ps ≠ .ok rs) :
    ∀ r, directiveStep k (.arr cs) ps ≠ .ok r := by
  intro r hr
  rcases hk with h | h <;> subst h
  · rw [directiveStep_and_eq] at hr
    cases h2 : critList cs ps with
    | error s => simp only [h2, errorBind] at hr; exact Except.noConfusion hr
    | ok ts => exact hcl ts h2
  · rw [directiveStep_or_eq] at hr
    cases h2 : critList cs ps with
    | error s => simp only [h2, errorBind] at hr; exact Except.noConfusion hr
    | ok ts => exact hcl ts h2

theorem directiveEntries_err_of_mem {ps : PropMap} {pairs : List (String × Value)}
    {k : String} {v : Value} (hmem : (k, v) ∈ pairs)
    (hstep : ∀ r, directiveStep k v ps ≠ .ok r) :
    ∀ rs, directiveEntries pairs ps ≠ .ok rs := by
  induction pairs with
  | nil => cases hmem
  | cons p rest ih =>
    obtain ⟨k', v'⟩ := p
    intro rs hr
    rw [List.mem_cons] at hmem
    simp only [directiveEntries] at hr
    cases h1 : directiveStep k' v' ps with
    | error s => simp only [h1, errorBind] at hr; exact Except.noConfusion hr
    | ok t =>
      simp only [h1, okBind] at hr
      cases h2 : directiveEntries rest ps with
      | error s => simp only [h2, errorBind] at hr; exact Except.noConfusion hr
      | ok ts =>
        rcases hmem with heq | hmem'
        · injection heq with hk hv
          subst hk; subst hv
          exact hstep t h1
        · exact ih hmem' ts h2

theorem fieldEntries_err_of_mem {ps : PropMap} {pairs : List (String × Value)}
    {f : String} {v : Value} (hmem : (f, v) ∈ pairs)
    (hstep : ∀ r, compileField f v ps ≠ .ok r) :
    ∀ rs, fieldEntries pairs ps ≠ .ok rs := by
  induction pairs with
  | nil => cases hmem
  | cons p rest ih =>
    obtain ⟨f', v'⟩ := p
    intro rs hr
    rw [List.mem_cons] at hmem
    simp only [fieldEntries] at hr
    cases h1 : compileField f' v' ps with
    | error s => simp only [h1, errorBind] at hr; exact Except.noConfusion hr
    | ok t =>
      simp only [h1, okBind] at hr
      cases h2 : fieldEntries rest ps with
      | error s => simp only [h2, errorBind] at hr; exact Except.noConfusion hr
      | ok ts =>
        rcases hmem with heq | hmem'
        · injection heq with hk hv
          subst hk; subst hv
          exact hstep t h1
        · exact ih hmem' ts h2

theorem critList_err_of_mem {ps : PropMap} {cs : List Value} {c : Value}
    (hmem : c ∈ cs) (hc : ∀ r, objectCriteria c ps ≠ .ok r) :
    ∀ rs, critList cs ps ≠ .ok rs := by
  induction cs with
  | nil => cases hmem
  | cons d rest ih =>
    intro rs hr
    rw [List.mem_cons] at hmem
    simp only [critList] at hr
    cases h1 : objectCriteria d ps with
    | error s => simp only [h1, errorBind] at hr; exact Except.noConfusion hr
    | ok t =>
      simp only [h1, okBind] at hr
      cases h2 : critList rest ps with
      | error s => simp only [h2, errorBind] at hr; exact Except.noConfusion hr
      | ok ts =>
        rcases hmem with heq | hmem'
        · subst heq
          exact hc t h1
        · exact ih hmem' ts h2

theorem ops_none_of_not_dollar {k : String} (h : startsDollar k = false) :
    ops k = none := by
  rw [ops.eq_def]
  split <;> first
    | rfl
    | exact absurd h (by decide)

theorem opEntries_err_of_mem {ps : PropMap} {f : String}
    {opPairs : List (String × Value)} {k : String} {v2 : Value}
    (hmem : (k, v2) ∈ opPairs) (hops : ops k = none) :
    ∀ rs, opEntries f opPairs ps ≠ .ok rs := by
  induction opPairs with
  | nil => cases hmem
  | cons p rest ih =>
    obtain ⟨k', w⟩ := p
    intro rs hr
    rw [List.mem_cons] at hmem
    simp only [opEntries] at hr
    by_cases hd : startsDollar k'
    · rw [if_neg (by simp [hd])] at hr
      cases h1 : ops k' with
      | none =>
        simp only [h1, errorBind] at hr
        exact Except.noConfusion hr
      | some op =>
        simp only [h1, okBind] at hr
        cases h2 : opEntries f rest ps with
        | error s => simp only [h2, errorBind] at hr; exact Except.noConfusion hr
        | ok ts =>
          rcases hmem with heq | hmem'
          · injection heq with hk hv
            subst hk; subst hv
            rw [hops] at h1
            exact Option.noConfusion h1
          · exact ih hmem' ts h2
    · rw [if_pos (by simp [hd]), errorBind] at hr
      exact Except.noConfusion hr

theorem compileField_err_opMap {f : String} {opPairs : List (String × Value)}
    {ps : PropMap} (hany : opPairs.any (fun p => startsDollar p.1) = true)
    (hent : ∀ rs, opEntries f opPairs ps ≠ .ok rs) :
    ∀ r, compileField f (.obj opPairs) ps ≠ .ok r := by
  intro r hr
  simp only [compileField, hany, if_true] at hr
  cases h2 : opEntries f opPairs ps with
  | error s => simp only [h2, errorBind] at hr; exact Except.noConfusion hr
  | ok ts => exact hent ts h2

theorem objectCriteria_dir_err {ps : PropMap} {pairs : List (String × Value)}
    (hany : pairs.any (fun p => startsDollar p.1) = true)
    (hent : ∀ rs, directiveEntries pairs ps ≠ .ok rs) :
    ∀ r, objectCriteria (.obj pairs) ps ≠ .ok r := by
  intro r hr
  have hne : pairs.isEmpty = false := by
    cases pairs with
    | nil => simp at hany
    | cons p rest => rfl
  simp only [objectCriteria, hne, hany, Bool.false_eq_true, if_false, if_true] at hr
  cases h2 : directiveEntries pairs ps with
  | error s => simp only [h2, errorBind] at hr; exact Except.noConfusion hr
  | ok ts => exact hent ts h2

theorem objectCriteria_field_err {ps : PropMap} {pairs : List (String × Value)}
    (hany : pairs.any (fun p => startsDollar p.1) = false) (hne : pairs ≠ [])
    (hent : ∀ rs, fieldEntries pairs ps ≠ .ok rs) :
    ∀ r, objectCriteria (.obj pairs) ps ≠ .ok r := by
  intro r hr
  have hne' : pairs.isEmpty = false := by
    cases pairs with
    | nil => exact absurd rfl hne
    | cons p rest => rfl
  simp only [objectCriteria, hne', hany, Bool.false_eq_true, if_false] at hr
  cases h2 : fieldEntries pairs ps with
  | error s => simp only [h2, errorBind] at hr; exact Except.noConfusion hr
  | ok ts => exact hent ts h2

theorem hasMixingEntries_exists {pairs : List (String × Value)}
    (h : hasMixingEntries pairs = true) :
    ∃ k v, (k, v) ∈ pairs ∧ hasMixingEntry k v = true := by
  induction pairs with
  | nil => simp [hasMixingEntries] at h
  | cons p rest ih =>
    obtain ⟨k, v⟩ := p
    simp only [hasMixingEntries, Bool.or_eq_true] at h
    rcases h with h | h
    · exact ⟨k, v, List.mem_cons_self _ _, h⟩
    · obtain ⟨k', v', hm, he⟩ := ih h
      exact ⟨k', v', List.mem_cons_of_mem _ hm, he⟩

mutual

theorem objectCriteria_hasMixing_err (v : Value) (ps : PropMap)
    (h : hasMixing v = true) : ∀ r, objectCriteria v ps ≠ .ok r := by
  match v with
  | .str _ => simp [hasMixing] at h
  | .num _ => simp [hasMixing] at h
  | .vnull => simp [hasMixing] at h
  | .undefined => simp [hasMixing] at h
  | .arr _ => simp [hasMixing] at h
  | .raw _ => simp [hasMixing] at h
  | .tmpl _ _ => simp [hasMixing] at h
  | .obj pairs =>
    simp only [hasMixing, Bool.or_eq_true, Bool.and_eq_true] at h
    rcases h with ⟨hany, hanyN⟩ | hent
    · rw [List.any_eq_true] at hanyN
      obtain ⟨⟨k, w⟩, hm, hkn⟩ := hanyN
      simp only [Bool.not_eq_eq_eq_not, Bool.not_true] at hkn
      exact objectCriteria_dir_err hany
        (directiveEntries_err_of_mem hm (fun r hr => by
          rw [directiveStep_err_nonDollar hkn] at hr
          exact Except.noConfusion hr))
    · by_cases hany : pairs.any (fun p => startsDollar p.1) = true
      · exact objectCriteria_dir_err hany (directiveEntries_hasMixing_err pairs ps hent)
      · have hne : pairs ≠ [] := by
          intro hnil
          subst hnil
          simp [hasMixingEntries] at hent
        exact objectCriteria_field_err (by simpa using hany) hne
          (fieldEntries_hasMixing_err pairs ps (by simpa using hany) hent)

theorem directiveEntries_hasMixing_err (pairs : List (String × Value)) (ps : PropMap)
    (h : hasMixingEntries pairs = true) : ∀ rs, directiveEntries pairs ps ≠ .ok rs := by
  match pairs with
  | [] => simp [hasMixingEntries] at h
  | (k, v) :: rest =>
    intro rs hr
    simp only [hasMixingEntries, Bool.or_eq_true] at h
    simp only [directiveEntries] at hr
    cases h1 : directiveStep k v ps with
    | error s => simp only [h1, errorBind] at hr; exact Except.noConfusion hr
    | ok t =>
      simp only [h1, okBind] at hr
      cases h2 : directiveEntries rest ps with
      | error s => simp only [h2, errorBind] at hr; exact Except.noConfusion hr
      | ok ts =>
        rcases h with hent | hrest
        · by_cases hd : startsDollar k = true
          · unfold hasMixingEntry at hent
            rw [if_pos hd] at hent
            match v, hent with
            | .arr es, hent =>
              by_cases hk : k = "$and" ∨ k = "$or"
              · exact directiveStep_group_err hk
                  (critList_hasMixing_err es ps hent) t h1
              · push_neg at hk
                exact directiveStep_err_badKey hk.1 hk.2 t h1
          · rw [directiveStep_err_nonDollar (by simpa using hd)] at h1
            exact Except.noConfusion h1
        · exact directiveEntries_hasMixing_err rest ps hrest ts h2

theorem fieldEntries_hasMixing_err (pairs : List (String × Value)) (ps : PropMap)
    (hany : pairs.any (fun p => startsDollar p.1) = false)
    (h : hasMixingEntries pairs = true) : ∀ rs, fieldEntries pairs ps ≠ .ok rs := by
  match pairs with
  | [] => simp [hasMixingEntries] at h
  | (k, v) :: rest =>
    intro rs hr
    simp only [hasMixingEntries, Bool.or_eq_true] at h
    simp only [List.any_cons, Bool.or_eq_false_iff] at hany
    obtain ⟨hk, hrestAny⟩ := hany
    simp only [fieldEntries] at hr
    cases h1 : compileField k v ps with
    | error s => simp only [h1, errorBind] at hr; exact Except.noConfusion hr
    | ok t =>
      simp only [h1, okBind] at hr
      cases h2 : fieldEntries rest ps with
      | error s => simp only [h2, errorBind] at hr; exact Except.noConfusion hr
      | ok ts =>
        rcases h with hent | hrest
        · unfold hasMixingEntry at hent
          rw [if_neg (by simp [hk])] at hent
          match v, hent with
          | .obj opPairs, hent =>
            rw [Bool.and_eq_true] at hent
            obtain ⟨hany2, hanyN2⟩ := hent
            rw [List.any_eq_true] at hanyN2
            obtain ⟨⟨k2, w2⟩, hm2, hk2⟩ := hanyN2
            simp only [Bool.not_eq_eq_eq_not, Bool.not_true] at hk2
            exact compileField_err_opMap hany2
              (opEntries_err_of_mem hm2 (ops_none_of_not_dollar hk2)) t h1
        · exact fieldEntries_hasMixing_err rest ps hrestAny hrest ts h2

theorem critList_hasMixing_err (cs : List Value) (ps : PropMap)
    (h : hasMixingList cs = true) : ∀ rs, critList cs ps ≠ .ok rs := by
  match cs with
  | [] => simp [hasMixingList] at h
  | c :: rest =>
    intro rs hr
    simp only [hasMixingList, Bool.or_eq_true] at h
    simp only [critList] at hr
    cases h1 : objectCriteria c ps with
    | error s => simp only [h1, errorBind] at hr; exact Except.noConfusion hr
    | ok t =>
      simp only [h1, okBind] at hr
      cases h2 : critList rest ps with
      | error s => simp only [h2, errorBind] at hr; exact Except.noConfusion hr
      | ok ts =>
        rcases h with hc | hrest
        · exact objectCriteria_hasMixing_err c ps hc t h1
        · exact critList_hasMixing_err rest ps hrest ts h2

end

/-! ## Evaluation lemmas for the compiling branches -/

theorem compileValue_scalar {w : Value} {n : Nat} (h : isScalar w = true) :
    compileValue w n = (placeholder n, [w], n + 1) := by
  cases w <;> simp_all [isScalar, compileValue]

theorem compileField_eq_of_not_opMap (f : String) (v : Value) (ps : PropMap)
    (h : isOpMap v = false) :
    compileField f v ps = .ok (.tmpl ["[", "] = ", ""] [.raw f, encodeField ps f v]) := by
  cases v with
  | obj opPairs =>
    simp only [isOpMap] at h
    simp only [compileField, h, Bool.false_eq_true, if_false]
  | str s => rfl
  | num k => rfl
  | vnull => rfl
  | undefined => rfl
  | arr es => rfl
  | raw t => rfl
  | tmpl fr su => rfl

theorem objectCriteria_single_field (f : String) (v : Value) (ps : PropMap)
    (hf : startsDollar f = false) :
    objectCriteria (.obj [(f, v)]) ps = compileField f v ps := by
  simp only [objectCriteria, List.isEmpty_cons, List.any_cons, List.any_nil, hf,
    Bool.or_false, Bool.false_eq_true, if_false]
  simp only [fieldEntries]
  cases h : compileField f v ps with
  | error s => simp [h, errorBind]
  | ok t => simp [h, okBind, parens]

theorem compileField_single_op (f k : String) (w : Value) (ps : PropMap)
    {op : String → Value → Value} (hk : ops k = some op) (hd : startsDollar k = true) :
    compileField f (.obj [(k, w)]) ps = .ok (op f (encodeField ps f w)) := by
  simp only [compileField, List.any_cons, List.any_nil, hd, Bool.or_false, if_true]
  simp only [opEntries]
  rw [if_neg (by simp [hd])]
  simp only [hk, okBind]
  simp [parens]

theorem critList_singleton (c : Value) (ps : PropMap) {t : Value}
    (h : objectCriteria c ps = .ok t) : critList [c] ps = .ok [t] := by
  simp only [critList]
  rw [h, okBind]
  rfl

theorem objectCriteria_or_singleton (c : Value) (ps : PropMap) {t : Value}
    (h : objectCriteria c ps = .ok t) :
    objectCriteria (.obj [("$or", .arr [c])]) ps = .ok t := by
  have h1 : directiveStep "$or" (.arr [c]) ps = .ok t := by
    rw [directiveStep_or_eq, critList_singleton c ps h, okBind]
    rfl
  have h0 : objectCriteria (.obj [("$or", .arr [c])]) ps
      = (do
          let ts ← directiveEntries [("$or", .arr [c])] ps
          parens ts " AND ") := rfl
  rw [h0]
  simp only [directiveEntries]
  rw [h1, okBind]
  rfl

theorem objectCriteria_and_singleton (c : Value) (ps : PropMap) {t : Value}
    (h : objectCriteria c ps = .ok t) :
    objectCriteria (.obj [("$and", .arr [c])]) ps = .ok t := by
  have h1 : directiveStep "$and" (.arr [c]) ps = .ok t := by
    rw [directiveStep_and_eq, critList_singleton c ps h, okBind]
    rfl
  have h0 : objectCriteria (.obj [("$and", .arr [c])]) ps
      = (do
          let ts ← directiveEntries [("$and", .arr [c])] ps
          parens ts " AND ") := rfl
  rw [h0]
  simp only [directiveEntries]
  rw [h1, okBind]
  rfl

theorem eq_template_bound (f : String) {w : Value} (hw : isScalar w = true) :
    (compileValue (.tmpl ["[", "] = ", ""] [.raw f, w]) 1).2.1 = [w] := by
  have hwf : wellFormed (.tmpl ["[", "] = ", ""] [.raw f, w]) = true := by
    simp [wellFormed, wellFormedList, wellFormed_of_isScalar hw]
  rw [(compileValue_spec _ 1 hwf).1]
  simp [flatBound, flatBoundList, flatBound_scalar hw]

/-! ## C3, C4: validation errors -/

/-- C3 counterexample: an unrecognized `$`-key does raise an error, but
the raised message is the generic `TypeError` text from invoking the
`undefined` table entry (`ops[key] is not a function` /
`groups[key] is not a function`) — it does not name (contain) the
unrecognized key. -/
theorem unrecognized_key_error_message_counterexample :
    objectCriteria (.obj [("a", .obj [("$eq", .num 1), ("$foo", .num 2)])]) []
        = .error "ops[key] is not a function"
      ∧ occursIn "$foo".data "ops[key] is not a function".data = false
      ∧ objectCriteria (.obj [("$not", .num 1)]) []
        = .error "groups[key] is not a function"
      ∧ occursIn "$not".data "groups[key] is not a function".data = false :=
  ⟨rfl, by decide, rfl, by decide⟩

/-- C3 (amended): a criteria object whose field carries an operator
mapping with a key that is not one of the eight recognized operators,
and a top-level object carrying a `$`-directive key other than
`$and`/`$or`, both make the criteria compiler raise an error and produce
no output — but the error is the generic `TypeError` of calling an
`undefined` table entry, and its message does not name the unrecognized
key. -/
theorem unrecognized_key_raises_error :
    (∀ (ps : PropMap) (pairs : List (String × Value)) (f : String)
        (opPairs : List (String × Value)) (k : String) (v2 : Value),
        pairs.any (fun p => startsDollar p.1) = false →
        (f, .obj opPairs) ∈ pairs →
        opPairs.any (fun p => startsDollar p.1) = true →
        (k, v2) ∈ opPairs → ops k = none →
        ∀ r, objectCriteria (.obj pairs) ps ≠ .ok r)
      ∧ (∀ (ps : PropMap) (pairs : List (String × Value)) (k : String) (v : Value),
          pairs.any (fun p => startsDollar p.1) = true →
          (k, v) ∈ pairs → k ≠ "$and" → k ≠ "$or" →
          ∀ r, objectCriteria (.obj pairs) ps ≠ .ok r) := by
  constructor
  · intro ps pairs f opPairs k v2 hany hmem hsome hk hops
    have hne : pairs ≠ [] := by
      intro hnil
      subst hnil
      cases hmem
    exact objectCriteria_field_err hany hne
      (fieldEntries_err_of_mem hmem
        (compileField_err_opMap hsome (opEntries_err_of_mem hk hops)))
  · intro ps pairs k v hany hmem h1 h2
    exact objectCriteria_dir_err hany
      (directiveEntries_err_of_mem hmem (directiveStep_err_badKey h1 h2))

/-- C3 witness: `{a: {$eq: 1, $foo: 2}}` and `{$not: 1}` both fail to
compile. -/
theorem unrecognized_key_raises_error_witness :
    ops "$foo" = none
      ∧ (∀ r, objectCriteria (.obj [("a", .obj [("$eq", .num 1), ("$foo", .num 2)])]) []
          ≠ .ok r)
      ∧ (∀ r, objectCriteria (.obj [("$not", .num 1)]) [] ≠ .ok r) :=
  ⟨rfl,
   unrecognized_key_raises_error.1 [] _ "a" [("$eq", .num 1), ("$foo", .num 2)]
     "$foo" (.num 2) rfl (List.mem_cons_self _ _) rfl
     (List.mem_cons_of_mem _ (List.mem_cons_self _ _)) rfl,
   unrecognized_key_raises_error.2 [] _ "$not" (.num 1) rfl (List.mem_cons_self _ _)
     (by decide) (by decide)⟩

/-- C4: a criteria object that, at any compiled nesting level, mixes a
`$`-directive key with a plain field key in the same mapping — or whose
field's operator mapping mixes `$`-operator keys with plain keys — never
compiles to a result (the compiler throws instead), and in the canonical
mixed inputs the raised error is exactly
`Cannot mix directives with fields`. -/
theorem mixing_directives_fields_error :
    (∀ (c : Value) (ps : PropMap), hasMixing c = true →
        ∀ r, objectCriteria c ps ≠ .ok r)
      ∧ objectCriteria (.obj [("a", .num 1), ("$or", .arr [.obj []])]) []
          = .error "Cannot mix directives with fields"
      ∧ objectCriteria (.obj [("a", .obj [("$eq", .num 1), ("b", .num 2)])]) []
          = .error "Cannot mix directives with fields" :=
  ⟨fun c ps h => objectCriteria_hasMixing_err c ps h, rfl, rfl⟩

/-- C4 witness: `{a: 1, $or: [{}]}` mixes at the top level (and a nested
`{$or: [{b: 2, $and: []}]}` mixes one level down); neither compiles. -/
theorem mixing_directives_fields_error_witness :
    hasMixing (.obj [("a", .num 1), ("$or", .arr [.obj []])]) = true
      ∧ (∀ r, objectCriteria (.obj [("a", .num 1), ("$or", .arr [.obj []])]) []
          ≠ .ok r)
      ∧ hasMixing (.obj [("$or", .arr [.obj [("b", .num 2), ("$and", .arr [])]])]) = true
      ∧ (∀ r, objectCriteria
          (.obj [("$or", .arr [.obj [("b", .num 2), ("$and", .arr [])]])]) [] ≠ .ok r) :=
  ⟨rfl, mixing_directives_fields_error.1 _ [] rfl,
   rfl, mixing_directives_fields_error.1 _ [] rfl⟩

/-! ## C6, C7, C8: compiled shapes -/

/-- C6 counterexample: `{status: {$in: [1,2,3]}}` compiles to
`[status] in (@p1, @p2, @p3)` — with bound values `[1,2,3]` — and *not*
to `([status] in (@p1, @p2, @p3))`: both the single-operator group and
the single-field group collapse without parentheses, so no surrounding
parentheses are produced. -/
theorem in_expansion_no_outer_parens_counterexample :
    (objectCriteria (.obj [("status", .obj [("$in", .arr [.num 1, .num 2, .num 3])])]) []).map
        (fun e => ((compileValue e 1).1, (compileValue e 1).2.1))
      = .ok ("[status] in (@p1, @p2, @p3)", [.num 1, .num 2, .num 3])
    ∧ (objectCriteria (.obj [("status", .obj [("$in", .arr [.num 1, .num 2, .num 3])])]) []).map
        (fun e => ((compileValue e 1).1, (compileValue e 1).2.1))
      ≠ .ok ("([status] in (@p1, @p2, @p3))", [.num 1, .num 2, .num 3]) := by
  refine ⟨rfl, fun h => ?_⟩
  have h2 : (Except.ok ("[status] in (@p1, @p2, @p3)",
        [Value.num 1, Value.num 2, Value.num 3]) : Except String (String × List Value))
      = .ok ("([status] in (@p1, @p2, @p3))", [Value.num 1, Value.num 2, Value.num 3]) :=
    (rfl :
      (objectCriteria (.obj [("status", .obj [("$in", .arr [.num 1, .num 2, .num 3])])]) []).map
        (fun e => ((compileValue e 1).1, (compileValue e 1).2.1))
      = .ok ("[status] in (@p1, @p2, @p3)", [.num 1, .num 2, .num 3])).symm.trans h
  have h4 : ("[status] in (@p1, @p2, @p3)" : String) = "([status] in (@p1, @p2, @p3))" :=
    congrArg Prod.fst (Except.ok.inj h2)
  exact absurd h4 (by decide)

/-- C6 (amended): `{status: {$in: [1,2,3]}}` compiles to
`[status] in (@p1, @p2, @p3)` (no outer parentheses — single-entry
groups collapse) with bound values `[1,2,3]`; in general an `$in`
comparison on an n-element sequence of scalars binds exactly the n
elements, in element order, through placeholders numbered consecutively
from the starting counter. -/
theorem in_expansion (f : String) (vs : List Value) (ps : PropMap)
    (hf : startsDollar f = false) (henc : List.lookup f ps = none)
    (hs : ∀ v ∈ vs, isScalar v = true) :
    objectCriteria (.obj [(f, .obj [("$in", .arr vs)])]) ps
        = .ok (.tmpl ["[", "] in (", ")"] [.raw f, .arr vs])
      ∧ (compileValue (.tmpl ["[", "] in (", ")"] [.raw f, .arr vs]) 1).2.1 = vs
      ∧ (compileValue (.tmpl ["[", "] in (", ")"] [.raw f, .arr vs]) 1).2.2
          = 1 + vs.length := by
  have hwf : wellFormed (.tmpl ["[", "] in (", ")"] [.raw f, .arr vs]) = true := by
    simp [wellFormed, wellFormedList, wellFormedList_of_all_scalar hs]
  have hsp := compileValue_spec (.tmpl ["[", "] in (", ")"] [.raw f, .arr vs]) 1 hwf
  have hfb : flatBound (.tmpl ["[", "] in (", ")"] [.raw f, .arr vs]) = vs := by
    simp only [flatBound, flatBoundList, flatBound_arr]
    rw [flatBoundList_all_scalar hs]
    simp
  refine ⟨?_, ?_, ?_⟩
  · rw [objectCriteria_single_field _ _ _ hf,
      compileField_single_op f "$in" (.arr vs) ps rfl rfl]
    simp [encodeField, henc]
  · rw [hsp.1, hfb]
  · rw [hsp.2, hfb]

/-- C6 witness: the 3-element instance. -/
theorem in_expansion_witness :
    startsDollar "status" = false
      ∧ objectCriteria
          (.obj [("status", .obj [("$in", .arr [.num 1, .num 2, .num 3])])]) []
        = .ok (.tmpl ["[", "] in (", ")"] [.raw "status", .arr [.num 1, .num 2, .num 3]])
      ∧ (compileValue
          (.tmpl ["[", "] in (", ")"] [.raw "status", .arr [.num 1, .num 2, .num 3]]) 1).2.1
        = [.num 1, .num 2, .num 3] := by
  have h := in_expansion "status" [.num 1, .num 2, .num 3] [] rfl rfl
    (by intro v hv; simp at hv; rcases hv with h | h | h <;> subst h <;> rfl)
  exact ⟨rfl, h.1, h.2.1⟩

/-- C7: `{$or: [{a: 1}, {a: 2}]}` compiles to
`([a] = @p1 OR [a] = @p2)` with bound values `[1, 2]`; and every
single-element `$or`/`$and` group returns its single compiled
sub-expression unchanged, without surrounding parentheses. -/
theorem boolean_grouping :
    (objectCriteria (.obj [("$or", .arr [.obj [("a", .num 1)], .obj [("a", .num 2)]])]) []).map
        (fun e => ((compileValue e 1).1, (compileValue e 1).2.1))
      = .ok ("([a] = @p1 OR [a] = @p2)", [.num 1, .num 2])
    ∧ (∀ (c : Value) (ps : PropMap) (t : Value), objectCriteria c ps = .ok t →
        objectCriteria (.obj [("$or", .arr [c])]) ps = .ok t
          ∧ objectCriteria (.obj [("$and", .arr [c])]) ps = .ok t) :=
  ⟨rfl, fun c ps _ h =>
    ⟨objectCriteria_or_singleton c ps h, objectCriteria_and_singleton c ps h⟩⟩

/-- C7 witness: singleton groups around `{a: 1}` return its compiled
comparison unchanged. -/
theorem boolean_grouping_witness :
    objectCriteria (.obj [("a", .num 1)]) [] = .ok (.tmpl ["[", "] = ", ""] [.raw "a", .num 1])
      ∧ objectCriteria (.obj [("$or", .arr [.obj [("a", .num 1)]])]) []
          = .ok (.tmpl ["[", "] = ", ""] [.raw "a", .num 1])
      ∧ objectCriteria (.obj [("$and", .arr [.obj [("a", .num 1)]])]) []
          = .ok (.tmpl ["[", "] = ", ""] [.raw "a", .num 1]) :=
  ⟨rfl,
   (boolean_grouping.2 (.obj [("a", .num 1)]) []
     (.tmpl ["[", "] = ", ""] [.raw "a", .num 1]) rfl).1,
   (boolean_grouping.2 (.obj [("a", .num 1)]) []
     (.tmpl ["[", "] = ", ""] [.raw "a", .num 1]) rfl).2⟩

/-- C8: the empty criteria object compiles to the tautology `1 = 1`
with zero bound parameters, whatever property-descriptor mapping is
supplied. -/
theorem empty_criteria_tautology (ps : PropMap) :
    objectCriteria (.obj []) ps = .ok (.raw "1 = 1")
      ∧ (objectCriteria (.obj []) ps).map
          (fun e => ((compileValue e 1).1, (compileValue e 1).2.1))
        = .ok ("1 = 1", []) :=
  ⟨rfl, rfl⟩

/-! ## C9, C10: encode pass-through and null-safe codecs -/

theorem op_template_bound (a b c : String) (f : String) {w : Value}
    (hw : isScalar w = true) :
    (compileValue (.tmpl [a, b, c] [.raw f, w]) 1).2.1 = [w] := by
  have hwf : wellFormed (.tmpl [a, b, c] [.raw f, w]) = true := by
    simp [wellFormed, wellFormedList, wellFormed_of_isScalar hw]
  rw [(compileValue_spec _ 1 hwf).1]
  simp [flatBound, flatBoundList, flatBound_scalar hw]

theorem startsDollar_of_ops_some {k : String} {op : String → Value → Value}
    (hk : ops k = some op) : startsDollar k = true := by
  rw [ops.eq_def] at hk
  split at hk <;> first
    | exact Option.noConfusion hk
    | decide

theorem ops_bound {k : String} {op : String → Value → Value}
    (hk : ops k = some op) (f : String) {w : Value} (hw : isScalar w = true) :
    (compileValue (op f w) 1).2.1 = [w] := by
  rw [ops.eq_def] at hk
  split at hk <;> first
    | exact Option.noConfusion hk
    | (injection hk with h; subst h; exact op_template_bound _ _ _ f hw)

/-- C9: every field comparison passes the raw value through the field's
registered encode function before binding it — both a plain equality
comparison `{f: v}` and each comparison of an operator mapping
`{f: {$op: v}}` bind `encode v` when the field is registered, and the
raw value unchanged when it is not. -/
theorem encode_pass_through (ps : PropMap) (f : String)
    (hf : startsDollar f = false) :
    (∀ (v : Value) (d : PropDesc), isOpMap v = false →
        List.lookup f ps = some d → isScalar (d.encode v) = true →
        (objectCriteria (.obj [(f, v)]) ps).map (fun e => (compileValue e 1).2.1)
          = .ok [d.encode v])
      ∧ (∀ v : Value, isOpMap v = false →
          List.lookup f ps = none → isScalar v = true →
          (objectCriteria (.obj [(f, v)]) ps).map (fun e => (compileValue e 1).2.1)
            = .ok [v])
      ∧ (∀ (k : String) (w : Value) (d : PropDesc) {op : String → Value → Value},
          ops k = some op → List.lookup f ps = some d → isScalar (d.encode w) = true →
          (objectCriteria (.obj [(f, .obj [(k, w)])]) ps).map
              (fun e => (compileValue e 1).2.1)
            = .ok [d.encode w])
      ∧ (∀ (k : String) (w : Value) {op : String → Value → Value},
          ops k = some op → List.lookup f ps = none → isScalar w = true →
          (objectCriteria (.obj [(f, .obj [(k, w)])]) ps).map
              (fun e => (compileValue e 1).2.1)
            = .ok [w]) := by
  refine ⟨?_, ?_, ?_, ?_⟩
  · intro v d hop hd hs
    rw [objectCriteria_single_field _ _ _ hf, compileField_eq_of_not_opMap _ _ _ hop]
    have he : encodeField ps f v = d.encode v := by simp [encodeField, hd]
    rw [he]
    simp only [Except.map]
    rw [eq_template_bound f hs]
  · intro v hop hn hs
    rw [objectCriteria_single_field _ _ _ hf, compileField_eq_of_not_opMap _ _ _ hop]
    have he : encodeField ps f v = v := by simp [encodeField, hn]
    rw [he]
    simp only [Except.map]
    rw [eq_template_bound f hs]
  · intro k w d op hk hd hs
    rw [objectCriteria_single_field _ _ _ hf,
      compileField_single_op f k w ps hk (startsDollar_of_ops_some hk)]
    have he : encodeField ps f w = d.encode w := by simp [encodeField, hd]
    rw [he]
    simp only [Except.map]
    rw [ops_bound hk f hs]
  · intro k w op hk hn hs
    rw [objectCriteria_single_field _ _ _ hf,
      compileField_single_op f k w ps hk (startsDollar_of_ops_some hk)]
    have he : encodeField ps f w = w := by simp [encodeField, hn]
    rw [he]
    simp only [Except.map]
    rw [ops_bound hk f hs]

/-- C9 witness: with `amount` registered to encode by multiplying by
100, `{amount: 5}` binds `500` and so does the operator comparison
`{amount: {$gt: 5}}`; on an unregistered field, `{other: 5}` and
`{other: {$gt: 5}}` bind `5`. -/
theorem encode_pass_through_witness :
    (objectCriteria (.obj [("amount", .num 5)])
        [("amount", ⟨.vnull, fun v => match v with | .num n => .num (100 * n) | w => w,
          fun w => w⟩)]).map (fun e => (compileValue e 1).2.1)
      = .ok [.num 500]
    ∧ (objectCriteria (.obj [("amount", .obj [("$gt", .num 5)])])
        [("amount", ⟨.vnull, fun v => match v with | .num n => .num (100 * n) | w => w,
          fun w => w⟩)]).map (fun e => (compileValue e 1).2.1)
      = .ok [.num 500]
    ∧ (objectCriteria (.obj [("other", .num 5)]) []).map (fun e => (compileValue e 1).2.1)
      = .ok [.num 5]
    ∧ (objectCriteria (.obj [("other", .obj [("$gt", .num 5)])]) []).map
        (fun e => (compileValue e 1).2.1)
      = .ok [.num 5] :=
  ⟨(encode_pass_through
      [("amount", ⟨.vnull, fun v => match v with | .num n => .num (100 * n) | w => w,
        fun w => w⟩)] "amount" rfl).1 (.num 5)
      ⟨.vnull, fun v => match v with | .num n => .num (100 * n) | w => w, fun w => w⟩
      rfl rfl rfl,
   (encode_pass_through
      [("amount", ⟨.vnull, fun v => match v with | .num n => .num (100 * n) | w => w,
        fun w => w⟩)] "amount" rfl).2.2.1 "$gt" (.num 5)
      ⟨.vnull, fun v => match v with | .num n => .num (100 * n) | w => w, fun w => w⟩
      rfl rfl rfl,
   (encode_pass_through [] "other" rfl).2.1 (.num 5) rfl rfl rfl,
   (encode_pass_through [] "other" rfl).2.2.2 "$gt" (.num 5) rfl rfl rfl⟩

/-- C10: the codec stored by `Table.property` maps `null` and
`undefined` to `null` without invoking the caller-supplied function
(whatever that function does); hence criteria comparisons and insert
writes on a registered field whose value is `null`/`undefined` bind
`null`, not the user codec's output. -/
theorem null_safe_codec :
    (∀ (ty : Value) (enc dec : Value → Value),
        (mkPropertyDesc ty enc dec).encode .vnull = .vnull
          ∧ (mkPropertyDesc ty enc dec).encode .undefined = .vnull
          ∧ (mkPropertyDesc ty enc dec).decode .vnull = .vnull
          ∧ (mkPropertyDesc ty enc dec).decode .undefined = .vnull)
      ∧ (∀ (ty : Value) (enc dec : Value → Value) (f : String),
          startsDollar f = false →
          (objectCriteria (.obj [(f, .vnull)]) [(f, mkPropertyDesc ty enc dec)]).map
              (fun e => (compileValue e 1).2.1) = .ok [.vnull]
            ∧ (objectCriteria (.obj [(f, .undefined)]) [(f, mkPropertyDesc ty enc dec)]).map
              (fun e => (compileValue e 1).2.1) = .ok [.vnull])
      ∧ (∀ (ty : Value) (enc dec : Value → Value) (f : String),
          insertValues [(f, mkPropertyDesc ty enc dec)] [(f, .vnull)] = [.vnull]
            ∧ insertValues [(f, mkPropertyDesc ty enc dec)] [(f, .undefined)] = [.vnull]) := by
  refine ⟨fun ty enc dec => ⟨rfl, rfl, rfl, rfl⟩, ?_, ?_⟩
  · intro ty enc dec f hf
    have hd : List.lookup f [(f, mkPropertyDesc ty enc dec)]
        = some (mkPropertyDesc ty enc dec) := by
      simp [List.lookup]
    constructor
    · rw [objectCriteria_single_field _ _ _ hf,
        compileField_eq_of_not_opMap f .vnull [(f, mkPropertyDesc ty enc dec)] rfl]
      have he : encodeField [(f, mkPropertyDesc ty enc dec)] f .vnull = .vnull := by
        simp [encodeField, hd, mkPropertyDesc]
      rw [he]
      simp only [Except.map]
      rw [eq_template_bound f (rfl : isScalar Value.vnull = true)]
    · rw [objectCriteria_single_field _ _ _ hf,
        compileField_eq_of_not_opMap f .undefined [(f, mkPropertyDesc ty enc dec)] rfl]
      have he : encodeField [(f, mkPropertyDesc ty enc dec)] f .undefined = .vnull := by
        simp [encodeField, hd, mkPropertyDesc]
      rw [he]
      simp only [Except.map]
      rw [eq_template_bound f (rfl : isScalar Value.vnull = true)]
  · intro ty enc dec f
    constructor
    · have hl : List.lookup f [(f, Value.vnull)] = some Value.vnull := by
        simp [List.lookup]
      simp [insertValues, recordGet, hl, mkPropertyDesc]
    · have hl : List.lookup f [(f, Value.undefined)] = some Value.undefined := by
        simp [List.lookup]
      simp [insertValues, recordGet, hl, mkPropertyDesc]

/-- C10 witness: a codec that maps everything to `9` still stores and
binds `null` for `null` input. -/
theorem null_safe_codec_witness :
    (mkPropertyDesc .vnull (fun _ => .num 9) (fun _ => .num 9)).encode .vnull = .vnull
      ∧ (objectCriteria (.obj [("n", .vnull)])
          [("n", mkPropertyDesc .vnull (fun _ => .num 9) (fun _ => .num 9))]).map
            (fun e => (compileValue e 1).2.1) = .ok [.vnull]
      ∧ insertValues [("n", mkPropertyDesc .vnull (fun _ => .num 9) (fun _ => .num 9))]
          [("n", .vnull)] = [.vnull] :=
  ⟨(null_safe_codec.1 .vnull (fun _ => .num 9) (fun _ => .num 9)).1,
   (null_safe_codec.2.1 .vnull (fun _ => .num 9) (fun _ => .num 9) "n" rfl).1,
   (null_safe_codec.2.2 .vnull (fun _ => .num 9) (fun _ => .num 9) "n").1⟩
